import Mathlib

/-!
Shallow embedding of the generative animation engine of this repository
(class `OrigamiAnimation` in `src/animation.js`).

JavaScript numbers are modelled as real numbers; `Math.sin`, `Math.cos`,
`Math.sqrt` and `Math.PI` become `Real.sin`, `Real.cos`, `Real.sqrt` and
`Real.pi`.  `Math.random()` is modelled as an explicit stream
`rand : ℕ → ℝ` whose values lie in `[0, 1)`, consumed in the order in
which the JavaScript evaluates the calls (18 draws per square, squares
generated in index order).  The canvas drawing calls have no effect on
engine state; only the numeric quantities they compute are modelled.
-/

namespace Origami

noncomputable section

/-- One decorative element: the object literal pushed onto `this.squares`
in `createSquares`, with the same fields in the same roles. -/
structure Square where
  x : ℝ
  y : ℝ
  size : ℝ
  rotation : ℝ
  rotationSpeed : ℝ
  color : String
  opacity : ℝ
  phaseX : ℝ
  phaseY : ℝ
  speedX : ℝ
  speedY : ℝ
  amplitudeX : ℝ
  amplitudeY : ℝ
  baseX : ℝ
  baseY : ℝ
  foldState : ℝ
  foldSpeed : ℝ
  layer : ℕ

/-- Displayed x-coordinate computed at the top of `update()`:
`square.baseX + Math.sin(this.time * 0.001 * square.speedX + square.phaseX) * square.amplitudeX`.
`update()` increments `this.time` before the per-square loop, so with `t`
the pre-tick counter the value used is `t + 1`. -/
def dispX (t : ℕ) (s : Square) : ℝ :=
  s.baseX + Real.sin (((t : ℝ) + 1) * 0.001 * s.speedX + s.phaseX) * s.amplitudeX

/-- Displayed y-coordinate:
`square.baseY + Math.cos(this.time * 0.001 * square.speedY + square.phaseY) * square.amplitudeY`. -/
def dispY (t : ℕ) (s : Square) : ℝ :=
  s.baseY + Real.cos (((t : ℝ) + 1) * 0.001 * s.speedY + s.phaseY) * s.amplitudeY

/-- Drift added to `baseX` each tick: `Math.sin(this.time * 0.0003 + i) * 0.1`
for the square at loop index `i`. -/
def driftX (t i : ℕ) : ℝ := Real.sin (((t : ℝ) + 1) * 0.0003 + (i : ℝ)) * 0.1

/-- Drift added to `baseY` each tick: `Math.cos(this.time * 0.0003 + i) * 0.1`. -/
def driftY (t i : ℕ) : ℝ := Real.cos (((t : ℝ) + 1) * 0.0003 + (i : ℝ)) * 0.1

/-- The two sequential wrap tests of `update()` applied to one coordinate:
`if (v < -size) v = dim + size;` then `if (v > dim + size) v = -size;`. -/
def wrapCoord (dim size v : ℝ) : ℝ :=
  let v1 := if v < -size then dim + size else v
  if v1 > dim + size then -size else v1

/-- Distance from the square's displayed position to the pointer:
`Math.sqrt(dx * dx + dy * dy)` with `dx = this.mouseX - square.x`,
`dy = this.mouseY - square.y`, where `square.x`, `square.y` were just
recomputed at the top of the same tick. -/
def pointerDist (mx my : ℝ) (t : ℕ) (s : Square) : ℝ :=
  Real.sqrt ((mx - dispX t s) * (mx - dispX t s) + (my - dispY t s) * (my - dispY t s))

/-- Advance of `foldState` in one tick:
`square.foldState += square.foldSpeed; if (square.foldState > 2 * Math.PI) square.foldState = 0;`. -/
def foldStep (f speed : ℝ) : ℝ :=
  if f + speed > 2 * Real.pi then 0 else f + speed

/-- One tick of `update()` for the square at loop index `i`: displayed
position from the pre-tick base, drift on the base, wrap-around, rotation
and fold advance, then the pointer repulsion (which modifies the base
again, after the wrap). `t` is the pre-tick value of `this.time`. -/
def updateSquare (w h mx my : ℝ) (t i : ℕ) (s : Square) : Square :=
  let x := dispX t s
  let y := dispY t s
  let bX := wrapCoord w s.size (s.baseX + driftX t i)
  let bY := wrapCoord h s.size (s.baseY + driftY t i)
  let dx := mx - x
  let dy := my - y
  let dist := Real.sqrt (dx * dx + dy * dy)
  let b2 : ℝ × ℝ :=
    if dist < 150 ∧ dist > 0 then
      (bX - dx / dist * ((150 - dist) / 150) * 0.5,
       bY - dy / dist * ((150 - dist) / 150) * 0.5)
    else (bX, bY)
  { s with
    x := x
    y := y
    baseX := b2.1
    baseY := b2.2
    rotation := s.rotation + s.rotationSpeed
    foldState := foldStep s.foldState s.foldSpeed }

/-- Fold amount derived in `drawFoldedSquare`:
`const fold = Math.sin(foldState * Math.PI) * 0.5;`. -/
def foldAmount (s : Square) : ℝ := Real.sin (s.foldState * Real.pi) * 0.5

/-- Division with an explicit failure on a zero divisor, used to make the
fallibility of the JavaScript division visible in `updateSquareChecked`. -/
def divOpt (a b : ℝ) : Option ℝ := if b = 0 then none else some (a / b)

/-- `updateSquare` with every division routed through `divOpt`, so that a
division by zero surfaces as `none` instead of being silently totalised. -/
def updateSquareChecked (w h mx my : ℝ) (t i : ℕ) (s : Square) : Option Square :=
  let x := dispX t s
  let y := dispY t s
  let bX := wrapCoord w s.size (s.baseX + driftX t i)
  let bY := wrapCoord h s.size (s.baseY + driftY t i)
  let dx := mx - x
  let dy := my - y
  let dist := Real.sqrt (dx * dx + dy * dy)
  if dist < 150 ∧ dist > 0 then
    match divOpt dx dist, divOpt dy dist with
    | some qx, some qy =>
        some { s with
               x := x
               y := y
               baseX := bX - qx * ((150 - dist) / 150) * 0.5
               baseY := bY - qy * ((150 - dist) / 150) * 0.5
               rotation := s.rotation + s.rotationSpeed
               foldState := foldStep s.foldState s.foldSpeed }
    | _, _ => none
  else
    some { s with
           x := x
           y := y
           baseX := bX
           baseY := bY
           rotation := s.rotation + s.rotationSpeed
           foldState := foldStep s.foldState s.foldSpeed }

/-- X-coordinates visited by the vertical grid-line loop of `drawGridLines`:
`for (let x = 0; x < this.width; x += gridSize)` with `gridSize = 80`. -/
def vLineXs (w : ℝ) : List ℝ := (List.range ⌈w / 80⌉₊).map (fun k => 80 * (k : ℝ))

/-- Y-coordinates visited by the horizontal grid-line loop of `drawGridLines`. -/
def hLineYs (h : ℝ) : List ℝ := (List.range ⌈h / 80⌉₊).map (fun k => 80 * (k : ℝ))

/-- The accent color keys of `createSquares`. -/
def colorKeys : List String := ["pink", "green", "yellow", "blue", "purple", "orange"]

/-- The Monokai palette lookup `this.colors[key]`. -/
def monokaiHex (k : String) : String :=
  if k = "pink" then "#f92672"
  else if k = "green" then "#a6e22e"
  else if k = "yellow" then "#e6db74"
  else if k = "blue" then "#66d9ef"
  else if k = "purple" then "#ae81ff"
  else if k = "orange" then "#fd971f"
  else "#f8f8f2"

/-- The square pushed at loop index `i` of `createSquares`.  Each square
consumes 18 `Math.random()` draws, in the evaluation order of the object
literal: x, y, size, rotation, rotationSpeed, color, opacity, phaseX,
phaseY, speedX, speedY, amplitudeX, amplitudeY, baseX, baseY, foldState,
foldSpeed, layer. -/
def mkSquare (rand : ℕ → ℝ) (w h : ℝ) (i : ℕ) : Square :=
  { x := rand (18 * i) * w
    y := rand (18 * i + 1) * h
    size := 20 + rand (18 * i + 2) * 60
    rotation := rand (18 * i + 3) * Real.pi * 2
    rotationSpeed := (rand (18 * i + 4) - 0.5) * 0.02
    color := monokaiHex (colorKeys.getD (Int.toNat ⌊rand (18 * i + 5) * 6⌋) "white")
    opacity := 0.1 + rand (18 * i + 6) * 0.4
    phaseX := rand (18 * i + 7) * Real.pi * 2
    phaseY := rand (18 * i + 8) * Real.pi * 2
    speedX := 0.3 + rand (18 * i + 9) * 0.5
    speedY := 0.3 + rand (18 * i + 10) * 0.5
    amplitudeX := 20 + rand (18 * i + 11) * 40
    amplitudeY := 20 + rand (18 * i + 12) * 40
    baseX := rand (18 * i + 13) * w
    baseY := rand (18 * i + 14) * h
    foldState := rand (18 * i + 15)
    foldSpeed := 0.005 + rand (18 * i + 16) * 0.01
    layer := Int.toNat ⌊rand (18 * i + 17) * 3⌋ }

/-- The comparison `(a, b) => a.layer - b.layer` used by the final sort of
`createSquares`, as the corresponding order relation. -/
def layerLe (a b : Square) : Prop := a.layer ≤ b.layer

instance : DecidableRel layerLe :=
  fun a b => inferInstanceAs (Decidable (a.layer ≤ b.layer))

instance : IsTotal Square layerLe := ⟨fun a b => Nat.le_total a.layer b.layer⟩

instance : IsTrans Square layerLe := ⟨fun _ _ _ hab hbc => Nat.le_trans hab hbc⟩

/-- `numSquares = 40` (`const numSquares = 40;`). -/
def numSquares : ℕ := 40

/-- `createSquares()`: discard the old list, push 40 fresh squares, then
sort the new list by layer.  The sort is modelled by a comparison sort
with respect to `layerLe`. -/
def createSquares (rand : ℕ → ℝ) (w h : ℝ) : List Square :=
  List.insertionSort layerLe ((List.range numSquares).map (mkSquare rand w h))

/-- The engine state held by an `OrigamiAnimation` instance: the frame
counter `this.time`, the square list, the latest pointer position, the
measured surface size and the running flag. -/
structure Engine where
  time : ℕ
  squares : List Square
  mouseX : ℝ
  mouseY : ℝ
  width : ℝ
  height : ℝ
  isRunning : Bool

/-- The indexed `forEach` of `update()` over the square list, starting at
loop index `i`. -/
def updateSquares (w h mx my : ℝ) (t : ℕ) : ℕ → List Square → List Square
  | _, [] => []
  | i, s :: rest =>
      updateSquare w h mx my t i s :: updateSquares w h mx my t (i + 1) rest

/-- One call of `update()`: increment `this.time`, then update every
square in place. -/
def updateEngine (e : Engine) : Engine :=
  { e with
    time := e.time + 1
    squares := updateSquares e.width e.height e.mouseX e.mouseY e.time 0 e.squares }

/-- One scheduled `animate()` invocation: a no-op when the engine is not
running, otherwise one update (the draw mutates no engine state) and a
request for the next frame. -/
def animateTick (e : Engine) : Engine := if e.isRunning then updateEngine e else e

/-- The write to `this.isRunning` performed by the visibility-change
handler (pause/resume). -/
def setRunning (b : Bool) (e : Engine) : Engine := { e with isRunning := b }

/-- The `mousemove` handler: record the pointer position relative to the
canvas origin. -/
def onMouseMove (mx my : ℝ) (e : Engine) : Engine := { e with mouseX := mx, mouseY := my }

/-- The `resize` handler: re-measure the surface and regenerate the whole
square set from fresh randomness. -/
def onResize (rand : ℕ → ℝ) (w h : ℝ) (e : Engine) : Engine :=
  { e with width := w, height := h, squares := createSquares rand w h }

/-- The state built by the constructor before the first frame: counter 0,
pointer at the origin, fresh squares, running. -/
def mkEngine (rand : ℕ → ℝ) (w h : ℝ) : Engine :=
  { time := 0
    squares := createSquares rand w h
    mouseX := 0
    mouseY := 0
    width := w
    height := h
    isRunning := true }

/-! ### Concrete states used by witnesses and counterexamples -/

/-- A generic square state with parameters inside the creation ranges. -/
def sqW1 : Square :=
  { x := 100, y := 100, size := 20, rotation := 0, rotationSpeed := 0.005
    color := "#f92672", opacity := 0.2, phaseX := 0, phaseY := 0
    speedX := 0.5, speedY := 0.5, amplitudeX := 20, amplitudeY := 20
    baseX := 100, baseY := 100, foldState := 0.5, foldSpeed := 0.01, layer := 0 }

/-- A square sitting just inside the left padded bound, with phases chosen
so that the tick's oscillation offsets vanish exactly (`sin π = 0`,
`cos (π/2) = 0`); all parameters lie in the creation ranges. -/
def sqC1 : Square :=
  { x := 0, y := 0, size := 20, rotation := 0, rotationSpeed := 0.005
    color := "#f92672", opacity := 0.2
    phaseX := Real.pi - 0.0005, phaseY := Real.pi / 2 - 0.0005
    speedX := 0.5, speedY := 0.5, amplitudeX := 20, amplitudeY := 20
    baseX := -19.95, baseY := 300, foldState := 0.5, foldSpeed := 0.01, layer := 0 }

/-- A square whose fold phase is exactly 1. -/
def sqC2 : Square :=
  { sqW1 with foldState := 1 }

/-- A square with zero oscillation amplitudes, so its displayed position
coincides with its base position. -/
def sqW3 : Square :=
  { sqW1 with amplitudeX := 0, amplitudeY := 0, baseX := 0, baseY := 0 }

/-- A square whose fold phase reaches exactly `2π` after 600 ticks:
`foldState = 2π - 6` is a legal `Math.random()` value (it lies in `[0,1)`)
and `foldSpeed = 0.01` lies in the creation range `[0.005, 0.015)`. -/
def sqC5 : Square :=
  { sqW1 with foldState := 2 * Real.pi - 6, foldSpeed := 0.01 }

/-- A single-square engine used to run `sqC5` for 600 ticks. -/
def engC5 : Engine :=
  { time := 0, squares := [sqC5], mouseX := 0, mouseY := 0
    width := 800, height := 600, isRunning := true }

/-- A square with a negative rotation speed, as the creation range
`(-0.01, 0.01)` allows. -/
def sqC6 : Square :=
  { sqW1 with rotation := 1, rotationSpeed := -0.005 }

/-- A single-square engine holding `sqW1`. -/
def engW6 : Engine :=
  { time := 0, squares := [sqW1], mouseX := 0, mouseY := 0
    width := 800, height := 600, isRunning := true }

/-- A zero-amplitude square displayed at `(30, 40)`, 50 px from the origin. -/
def sqW10 : Square :=
  { sqW1 with amplitudeX := 0, amplitudeY := 0, baseX := 30, baseY := 40 }

/-- The constant-zero random stream (a legal `Math.random()` trace). -/
def rand0 : ℕ → ℝ := fun _ => 0

/-- The fold-phase trajectory: `n` applications of `foldStep`. -/
def foldIter (f speed : ℝ) : ℕ → ℝ
  | 0 => f
  | n + 1 => foldStep (foldIter f speed n) speed

/-! ### Basic unfolding lemmas -/

@[simp] theorem updateSquare_x (w h mx my : ℝ) (t i : ℕ) (s : Square) :
    (updateSquare w h mx my t i s).x = dispX t s := rfl

@[simp] theorem updateSquare_y (w h mx my : ℝ) (t i : ℕ) (s : Square) :
    (updateSquare w h mx my t i s).y = dispY t s := rfl

@[simp] theorem updateSquare_rotation (w h mx my : ℝ) (t i : ℕ) (s : Square) :
    (updateSquare w h mx my t i s).rotation = s.rotation + s.rotationSpeed := rfl

@[simp] theorem updateSquare_rotationSpeed (w h mx my : ℝ) (t i : ℕ) (s : Square) :
    (updateSquare w h mx my t i s).rotationSpeed = s.rotationSpeed := rfl

@[simp] theorem updateSquare_foldState (w h mx my : ℝ) (t i : ℕ) (s : Square) :
    (updateSquare w h mx my t i s).foldState = foldStep s.foldState s.foldSpeed := rfl

@[simp] theorem updateSquare_foldSpeed (w h mx my : ℝ) (t i : ℕ) (s : Square) :
    (updateSquare w h mx my t i s).foldSpeed = s.foldSpeed := rfl

@[simp] theorem updateSquare_size (w h mx my : ℝ) (t i : ℕ) (s : Square) :
    (updateSquare w h mx my t i s).size = s.size := rfl

@[simp] theorem updateSquare_speedX (w h mx my : ℝ) (t i : ℕ) (s : Square) :
    (updateSquare w h mx my t i s).speedX = s.speedX := rfl

@[simp] theorem updateSquare_speedY (w h mx my : ℝ) (t i : ℕ) (s : Square) :
    (updateSquare w h mx my t i s).speedY = s.speedY := rfl

@[simp] theorem updateSquare_phaseX (w h mx my : ℝ) (t i : ℕ) (s : Square) :
    (updateSquare w h mx my t i s).phaseX = s.phaseX := rfl

@[simp] theorem updateSquare_phaseY (w h mx my : ℝ) (t i : ℕ) (s : Square) :
    (updateSquare w h mx my t i s).phaseY = s.phaseY := rfl

@[simp] theorem updateSquare_amplitudeX (w h mx my : ℝ) (t i : ℕ) (s : Square) :
    (updateSquare w h mx my t i s).amplitudeX = s.amplitudeX := rfl

@[simp] theorem updateSquare_amplitudeY (w h mx my : ℝ) (t i : ℕ) (s : Square) :
    (updateSquare w h mx my t i s).amplitudeY = s.amplitudeY := rfl

/-- Closed form of the `baseX` written by one tick: the drifted and wrapped
base, minus the repulsion nudge exactly when the pointer is strictly
within 150 px and at nonzero distance. -/
theorem updateSquare_baseX_eq (w h mx my : ℝ) (t i : ℕ) (s : Square) :
    (updateSquare w h mx my t i s).baseX
      = if pointerDist mx my t s < 150 ∧ pointerDist mx my t s > 0 then
          wrapCoord w s.size (s.baseX + driftX t i)
            - (mx - dispX t s) / pointerDist mx my t s
              * ((150 - pointerDist mx my t s) / 150) * 0.5
        else wrapCoord w s.size (s.baseX + driftX t i) := by
  simp only [updateSquare, pointerDist]
  split_ifs with hc <;> rfl

/-- Closed form of the `baseY` written by one tick. -/
theorem updateSquare_baseY_eq (w h mx my : ℝ) (t i : ℕ) (s : Square) :
    (updateSquare w h mx my t i s).baseY
      = if pointerDist mx my t s < 150 ∧ pointerDist mx my t s > 0 then
          wrapCoord h s.size (s.baseY + driftY t i)
            - (my - dispY t s) / pointerDist mx my t s
              * ((150 - pointerDist mx my t s) / 150) * 0.5
        else wrapCoord h s.size (s.baseY + driftY t i) := by
  simp only [updateSquare, pointerDist]
  split_ifs with hc <;> rfl

/-- The two sequential wrap tests land every input in `[-size, dim + size]`,
provided that interval is nonempty. -/
theorem wrapCoord_mem (dim size v : ℝ) (hd : -size ≤ dim + size) :
    -size ≤ wrapCoord dim size v ∧ wrapCoord dim size v ≤ dim + size := by
  unfold wrapCoord
  by_cases h1 : v < -size
  · simp only [if_pos h1, if_neg (lt_irrefl (dim + size))]
    exact ⟨hd, le_refl _⟩
  · simp only [if_neg h1]
    by_cases h2 : v > dim + size
    · simp only [if_pos h2]
      exact ⟨le_refl _, hd⟩
    · simp only [if_neg h2]
      exact ⟨le_of_not_lt h1, le_of_not_lt h2⟩

/-- `pointerDist` is a nonnegative square root. -/
theorem pointerDist_nonneg (mx my : ℝ) (t : ℕ) (s : Square) :
    0 ≤ pointerDist mx my t s := Real.sqrt_nonneg _

/-- The x-component of the vector to the pointer is no longer than the
distance itself. -/
theorem abs_dx_le_pointerDist (mx my : ℝ) (t : ℕ) (s : Square) :
    |mx - dispX t s| ≤ pointerDist mx my t s := by
  have h1 : (mx - dispX t s) * (mx - dispX t s)
      ≤ (mx - dispX t s) * (mx - dispX t s) + (my - dispY t s) * (my - dispY t s) := by
    nlinarith [mul_self_nonneg (my - dispY t s)]
  calc |mx - dispX t s| = Real.sqrt ((mx - dispX t s) * (mx - dispX t s)) :=
        (Real.sqrt_mul_self_eq_abs _).symm
    _ ≤ pointerDist mx my t s := Real.sqrt_le_sqrt h1

/-- The y-component of the vector to the pointer is no longer than the
distance itself. -/
theorem abs_dy_le_pointerDist (mx my : ℝ) (t : ℕ) (s : Square) :
    |my - dispY t s| ≤ pointerDist mx my t s := by
  have h1 : (my - dispY t s) * (my - dispY t s)
      ≤ (mx - dispX t s) * (mx - dispX t s) + (my - dispY t s) * (my - dispY t s) := by
    nlinarith [mul_self_nonneg (mx - dispX t s)]
  calc |my - dispY t s| = Real.sqrt ((my - dispY t s) * (my - dispY t s)) :=
        (Real.sqrt_mul_self_eq_abs _).symm
    _ ≤ pointerDist mx my t s := Real.sqrt_le_sqrt h1

/-- The repulsion nudge applied to one base coordinate has absolute value
at most `0.5`. -/
theorem nudge_abs_le {dx d : ℝ} (hpos : 0 < d) (hlt : d < 150) (hdx : |dx| ≤ d) :
    |dx / d * ((150 - d) / 150) * 0.5| ≤ 0.5 := by
  have h1 : |dx / d| ≤ 1 := by
    rw [abs_div, abs_of_pos hpos]
    exact (div_le_one hpos).mpr hdx
  have h2 : |(150 - d) / 150| ≤ 1 := by
    rw [abs_div]
    rw [abs_of_pos (by linarith : (0:ℝ) < 150 - d), abs_of_pos (by norm_num : (0:ℝ) < 150)]
    rw [div_le_one (by norm_num : (0:ℝ) < 150)]
    linarith
  have h3 : |dx / d * ((150 - d) / 150) * 0.5|
      = |dx / d| * |(150 - d) / 150| * |(0.5 : ℝ)| := by
    rw [abs_mul, abs_mul]
  rw [h3, abs_of_pos (by norm_num : (0:ℝ) < 0.5)]
  nlinarith [abs_nonneg (dx / d), abs_nonneg ((150 - d) / 150)]

/-! ### C1: wrap invariant on the base position -/

/-- Oscillation offsets of `sqC1` vanish in x at tick `t = 0`. -/
theorem dispX_sqC1 : dispX 0 sqC1 = -19.95 := by
  have harg : (((0 : ℕ) : ℝ) + 1) * 0.001 * sqC1.speedX + sqC1.phaseX = Real.pi := by
    simp only [sqC1]
    push_cast
    ring_nf
  simp only [dispX, harg, Real.sin_pi, sqC1]
  norm_num

/-- Oscillation offsets of `sqC1` vanish in y at tick `t = 0`. -/
theorem dispY_sqC1 : dispY 0 sqC1 = 300 := by
  have harg : (((0 : ℕ) : ℝ) + 1) * 0.001 * sqC1.speedY + sqC1.phaseY = Real.pi / 2 := by
    simp only [sqC1]
    push_cast
    ring_nf
  simp only [dispY, harg, Real.cos_pi_div_two, sqC1]
  norm_num

/-- With the pointer at `(80.05, 300)`, the distance to `sqC1`'s displayed
position at tick 0 is exactly 100. -/
theorem pointerDist_sqC1 : pointerDist 80.05 300 0 sqC1 = 100 := by
  have hsum : (80.05 - dispX 0 sqC1) * (80.05 - dispX 0 sqC1)
      + (300 - dispY 0 sqC1) * (300 - dispY 0 sqC1) = 100 * 100 := by
    rw [dispX_sqC1, dispY_sqC1]
    norm_num
  unfold pointerDist
  rw [hsum, Real.sqrt_mul_self (by norm_num : (0:ℝ) ≤ 100)]

/-- After one tick with the pointer 100 px to the right, `sqC1`'s base has
been pushed strictly below the left padded bound `-20`. -/
theorem updateSquare_sqC1_baseX_lt :
    (updateSquare 800 600 80.05 300 0 0 sqC1).baseX < -20 := by
  have hpi := Real.pi_gt_three
  have hs1 : 0 < Real.sin 0.0003 :=
    Real.sin_pos_of_pos_of_lt_pi (by norm_num) (by linarith)
  have hs2 : Real.sin 0.0003 ≤ 1 := Real.sin_le_one _
  have hdrift : driftX 0 0 = Real.sin 0.0003 * 0.1 := by
    unfold driftX
    norm_num
  have hwrap : wrapCoord 800 sqC1.size (sqC1.baseX + driftX 0 0)
      = sqC1.baseX + driftX 0 0 := by
    have hA : ¬(sqC1.baseX + driftX 0 0 < -sqC1.size) := by
      simp only [sqC1, hdrift]
      nlinarith
    have hB : ¬(sqC1.baseX + driftX 0 0 > 800 + sqC1.size) := by
      simp only [sqC1, hdrift]
      nlinarith
    simp only [wrapCoord]
    rw [if_neg hA, if_neg hB]
  have hc : pointerDist 80.05 300 0 sqC1 < 150 ∧ pointerDist 80.05 300 0 sqC1 > 0 := by
    rw [pointerDist_sqC1]
    norm_num
  rw [updateSquare_baseX_eq, if_pos hc, pointerDist_sqC1, hwrap, dispX_sqC1, hdrift]
  simp only [sqC1]
  nlinarith

/-- C1: the claim is false as stated.  `sqC1` starts with its base inside
the padded bounds (and all creation-range side conditions hold), yet after
one update tick — where the repulsion nudge runs after the wrap — its
`baseX` lies strictly below `-size`. -/
theorem c1_wrap_invariant_cex :
    (-sqC1.size ≤ sqC1.baseX ∧ sqC1.baseX ≤ 800 + sqC1.size ∧
     -sqC1.size ≤ sqC1.baseY ∧ sqC1.baseY ≤ 600 + sqC1.size) ∧
    (20 ≤ sqC1.size ∧ sqC1.size ≤ 80) ∧
    (0.3 ≤ sqC1.speedX ∧ sqC1.speedX ≤ 0.8) ∧
    (20 ≤ sqC1.amplitudeX ∧ sqC1.amplitudeX ≤ 60) ∧
    (0 ≤ sqC1.phaseX ∧ sqC1.phaseX < 2 * Real.pi) ∧
    (0 ≤ sqC1.phaseY ∧ sqC1.phaseY < 2 * Real.pi) ∧
    (updateSquare 800 600 80.05 300 0 0 sqC1).baseX < -sqC1.size := by
  have hpi := Real.pi_gt_three
  refine ⟨by norm_num [sqC1], by norm_num [sqC1], by norm_num [sqC1], by norm_num [sqC1],
    ⟨by simp only [sqC1]; linarith, by simp only [sqC1]; linarith⟩,
    ⟨by simp only [sqC1]; linarith, by simp only [sqC1]; linarith⟩, ?_⟩
  have h20 : -sqC1.size = (-20 : ℝ) := by norm_num [sqC1]
  rw [h20]
  exact updateSquare_sqC1_baseX_lt

/-- C1 (amended): one update tick from an arbitrary state lands every base
coordinate in the padded bounds inflated by the maximal repulsion nudge of
`0.5`; the wrap step itself enforces the original bounds, but the
repulsion runs after it. -/
theorem c1_base_in_padded_bounds_amended (w h mx my : ℝ) (t i : ℕ) (s : Square)
    (hw : -s.size ≤ w + s.size) (hh : -s.size ≤ h + s.size) :
    -s.size - 0.5 ≤ (updateSquare w h mx my t i s).baseX ∧
    (updateSquare w h mx my t i s).baseX ≤ w + s.size + 0.5 ∧
    -s.size - 0.5 ≤ (updateSquare w h mx my t i s).baseY ∧
    (updateSquare w h mx my t i s).baseY ≤ h + s.size + 0.5 := by
  have hbx := updateSquare_baseX_eq w h mx my t i s
  have hby := updateSquare_baseY_eq w h mx my t i s
  have hwx := wrapCoord_mem w s.size (s.baseX + driftX t i) hw
  have hwy := wrapCoord_mem h s.size (s.baseY + driftY t i) hh
  by_cases hc : pointerDist mx my t s < 150 ∧ pointerDist mx my t s > 0
  · rw [if_pos hc] at hbx hby
    have hnx := nudge_abs_le hc.2 hc.1 (abs_dx_le_pointerDist mx my t s)
    have hny := nudge_abs_le hc.2 hc.1 (abs_dy_le_pointerDist mx my t s)
    rw [abs_le] at hnx hny
    rw [hbx, hby]
    refine ⟨?_, ?_, ?_, ?_⟩ <;> linarith [hwx.1, hwx.2, hwy.1, hwy.2,
      hnx.1, hnx.2, hny.1, hny.2]
  · rw [if_neg hc] at hbx hby
    rw [hbx, hby]
    refine ⟨?_, ?_, ?_, ?_⟩ <;> linarith [hwx.1, hwx.2, hwy.1, hwy.2]

/-- Witness for the amended C1 theorem at a concrete state. -/
theorem c1_base_in_padded_bounds_witness :
    (-sqW1.size ≤ 800 + sqW1.size ∧ -sqW1.size ≤ 600 + sqW1.size) ∧
    (-sqW1.size - 0.5 ≤ (updateSquare 800 600 0 0 0 0 sqW1).baseX ∧
     (updateSquare 800 600 0 0 0 0 sqW1).baseX ≤ 800 + sqW1.size + 0.5 ∧
     -sqW1.size - 0.5 ≤ (updateSquare 800 600 0 0 0 0 sqW1).baseY ∧
     (updateSquare 800 600 0 0 0 0 sqW1).baseY ≤ 600 + sqW1.size + 0.5) :=
  ⟨⟨by norm_num [sqW1], by norm_num [sqW1]⟩,
   c1_base_in_padded_bounds_amended 800 600 0 0 0 0 sqW1
     (by norm_num [sqW1]) (by norm_num [sqW1])⟩

/-! ### C2: the fold amount -/

/-- C2: the claim is false as stated.  At fold phase `1`, the code's fold
amount `sin(foldState * π) * 0.5` is `0`, while the claimed formula
`sin(foldState) * 0.5` is strictly positive. -/
theorem c2_fold_amount_cex :
    foldAmount sqC2 ≠ Real.sin sqC2.foldState * 0.5 := by
  have h1 : foldAmount sqC2 = 0 := by
    unfold foldAmount
    simp only [sqC2, sqW1]
    rw [one_mul, Real.sin_pi]
    norm_num
  have h2 : 0 < Real.sin sqC2.foldState := by
    have : sqC2.foldState = 1 := rfl
    rw [this]
    exact Real.sin_pos_of_pos_of_lt_pi one_pos (by linarith [Real.pi_gt_three])
  intro hE
  rw [h1] at hE
  nlinarith

/-- C2 (amended): during rendering the fold amount is
`sin(foldState * π) * 0.5` — the fold phase is multiplied by `π` before
the sine — and therefore always lies in `[-0.5, 0.5]`. -/
theorem c2_fold_amount_amended (s : Square) :
    foldAmount s = Real.sin (s.foldState * Real.pi) * 0.5 ∧
    -0.5 ≤ foldAmount s ∧ foldAmount s ≤ 0.5 := by
  refine ⟨rfl, ?_, ?_⟩ <;> unfold foldAmount <;>
    nlinarith [Real.neg_one_le_sin (s.foldState * Real.pi),
      Real.sin_le_one (s.foldState * Real.pi)]

/-! ### C3: the pointer repulsion -/

/-- C3: in a tick where the pointer distance is strictly between 0 and
150, the base receives — after the drift and wrap — a nudge of magnitude
`(150 - dist)/150 * 0.5` directed away from the pointer (a positive
multiple of the vector from the pointer to the displayed position);
otherwise the base change of the tick is the drifted-and-wrapped value,
with no repulsion term. -/
theorem c3_repulsion (w h mx my : ℝ) (t i : ℕ) (s : Square) :
    (0 < pointerDist mx my t s → pointerDist mx my t s < 150 →
      ((updateSquare w h mx my t i s).baseX
          = wrapCoord w s.size (s.baseX + driftX t i)
            - (mx - dispX t s) / pointerDist mx my t s
              * ((150 - pointerDist mx my t s) / 150) * 0.5
        ∧ (updateSquare w h mx my t i s).baseY
          = wrapCoord h s.size (s.baseY + driftY t i)
            - (my - dispY t s) / pointerDist mx my t s
              * ((150 - pointerDist mx my t s) / 150) * 0.5)
      ∧ Real.sqrt
          (((updateSquare w h mx my t i s).baseX
              - wrapCoord w s.size (s.baseX + driftX t i))
            * ((updateSquare w h mx my t i s).baseX
              - wrapCoord w s.size (s.baseX + driftX t i))
          + ((updateSquare w h mx my t i s).baseY
              - wrapCoord h s.size (s.baseY + driftY t i))
            * ((updateSquare w h mx my t i s).baseY
              - wrapCoord h s.size (s.baseY + driftY t i)))
          = (150 - pointerDist mx my t s) / 150 * 0.5
      ∧ ∃ c, 0 < c
          ∧ (updateSquare w h mx my t i s).baseX
              - wrapCoord w s.size (s.baseX + driftX t i) = c * (dispX t s - mx)
          ∧ (updateSquare w h mx my t i s).baseY
              - wrapCoord h s.size (s.baseY + driftY t i) = c * (dispY t s - my))
    ∧ (pointerDist mx my t s = 0 ∨ 150 ≤ pointerDist mx my t s →
        (updateSquare w h mx my t i s).baseX
          = wrapCoord w s.size (s.baseX + driftX t i)
        ∧ (updateSquare w h mx my t i s).baseY
          = wrapCoord h s.size (s.baseY + driftY t i)) := by
  constructor
  · intro hpos hlt
    have hc : pointerDist mx my t s < 150 ∧ pointerDist mx my t s > 0 := ⟨hlt, hpos⟩
    have hbx := updateSquare_baseX_eq w h mx my t i s
    have hby := updateSquare_baseY_eq w h mx my t i s
    rw [if_pos hc] at hbx hby
    have hd0 : pointerDist mx my t s ≠ 0 := ne_of_gt hpos
    have hdd : pointerDist mx my t s * pointerDist mx my t s
        = (mx - dispX t s) * (mx - dispX t s) + (my - dispY t s) * (my - dispY t s) := by
      unfold pointerDist
      exact Real.mul_self_sqrt (add_nonneg (mul_self_nonneg _) (mul_self_nonneg _))
    refine ⟨⟨hbx, hby⟩, ?_, ?_⟩
    · have hf : (0:ℝ) ≤ (150 - pointerDist mx my t s) / 150 * 0.5 := by
        have : (0:ℝ) < 150 - pointerDist mx my t s := by linarith
        positivity
      have harg :
          ((updateSquare w h mx my t i s).baseX
              - wrapCoord w s.size (s.baseX + driftX t i))
            * ((updateSquare w h mx my t i s).baseX
              - wrapCoord w s.size (s.baseX + driftX t i))
          + ((updateSquare w h mx my t i s).baseY
              - wrapCoord h s.size (s.baseY + driftY t i))
            * ((updateSquare w h mx my t i s).baseY
              - wrapCoord h s.size (s.baseY + driftY t i))
          = ((150 - pointerDist mx my t s) / 150 * 0.5)
            * ((150 - pointerDist mx my t s) / 150 * 0.5) := by
        rw [hbx, hby]
        field_simp
        nlinarith [hdd]
      rw [harg, Real.sqrt_mul_self hf]
    · refine ⟨(150 - pointerDist mx my t s) / 150 * 0.5 / pointerDist mx my t s,
        ?_, ?_, ?_⟩
      · have h1 : (0:ℝ) < 150 - pointerDist mx my t s := by linarith
        positivity
      · rw [hbx]
        field_simp
        ring
      · rw [hby]
        field_simp
        ring
  · intro hfar
    have hc : ¬(pointerDist mx my t s < 150 ∧ pointerDist mx my t s > 0) := by
      rintro ⟨h1, h2⟩
      rcases hfar with h0 | h150
      · rw [h0] at h2
        exact lt_irrefl 0 h2
      · linarith
    have hbx := updateSquare_baseX_eq w h mx my t i s
    have hby := updateSquare_baseY_eq w h mx my t i s
    rw [if_neg hc] at hbx hby
    exact ⟨hbx, hby⟩

/-- The displayed position of the zero-amplitude square `sqW3` is its base
position. -/
theorem disp_sqW3 : dispX 0 sqW3 = 0 ∧ dispY 0 sqW3 = 0 := by
  constructor <;> simp [dispX, dispY, sqW3, sqW1]

/-- With the pointer at `(100, 0)`, the distance to `sqW3` is exactly 100. -/
theorem pointerDist_sqW3 : pointerDist 100 0 0 sqW3 = 100 := by
  have hsum : (100 - dispX 0 sqW3) * (100 - dispX 0 sqW3)
      + (0 - dispY 0 sqW3) * (0 - dispY 0 sqW3) = 100 * 100 := by
    rw [disp_sqW3.1, disp_sqW3.2]
    norm_num
  unfold pointerDist
  rw [hsum, Real.sqrt_mul_self (by norm_num : (0:ℝ) ≤ 100)]

/-- Witness for the C3 theorem at a concrete near-pointer state. -/
theorem c3_repulsion_witness :
    0 < pointerDist 100 0 0 sqW3 ∧ pointerDist 100 0 0 sqW3 < 150 ∧
    ((updateSquare 800 600 100 0 0 0 sqW3).baseX
        = wrapCoord 800 sqW3.size (sqW3.baseX + driftX 0 0)
          - (100 - dispX 0 sqW3) / pointerDist 100 0 0 sqW3
            * ((150 - pointerDist 100 0 0 sqW3) / 150) * 0.5
      ∧ (updateSquare 800 600 100 0 0 0 sqW3).baseY
        = wrapCoord 600 sqW3.size (sqW3.baseY + driftY 0 0)
          - (0 - dispY 0 sqW3) / pointerDist 100 0 0 sqW3
            * ((150 - pointerDist 100 0 0 sqW3) / 150) * 0.5) := by
  have h1 : 0 < pointerDist 100 0 0 sqW3 := by
    rw [pointerDist_sqW3]
    norm_num
  have h2 : pointerDist 100 0 0 sqW3 < 150 := by
    rw [pointerDist_sqW3]
    norm_num
  exact ⟨h1, h2, ((c3_repulsion 800 600 100 0 0 0 sqW3).1 h1 h2).1⟩

/-! ### C4: how the displayed position is recomputed -/

/-- C4: the claim is false as stated.  After the tick that repels `sqC1`,
the stored displayed position (computed from the pre-tick base) differs
from the updated base plus the oscillation offset of the same tick. -/
theorem c4_displayed_position_cex :
    (updateSquare 800 600 80.05 300 0 0 sqC1).x
      ≠ dispX 0 (updateSquare 800 600 80.05 300 0 0 sqC1) := by
  have hx : (updateSquare 800 600 80.05 300 0 0 sqC1).x = -19.95 := by
    rw [updateSquare_x]
    exact dispX_sqC1
  have harg : (((0 : ℕ) : ℝ) + 1) * 0.001
      * (updateSquare 800 600 80.05 300 0 0 sqC1).speedX
      + (updateSquare 800 600 80.05 300 0 0 sqC1).phaseX = Real.pi := by
    rw [updateSquare_speedX, updateSquare_phaseX]
    simp only [sqC1]
    push_cast
    ring_nf
  have hdisp : dispX 0 (updateSquare 800 600 80.05 300 0 0 sqC1)
      = (updateSquare 800 600 80.05 300 0 0 sqC1).baseX := by
    unfold dispX
    rw [harg, Real.sin_pi, zero_mul, add_zero]
  rw [hx, hdisp]
  intro hE
  have := updateSquare_sqC1_baseX_lt
  rw [← hE] at this
  norm_num at this

/-- C4 (amended): at the end of a tick the displayed position equals the
PRE-tick base position plus the oscillation offset of the tick; the
drift, wrap and repulsion applied to the base later in the same tick are
not reflected in the displayed position until the next tick. -/
theorem c4_displayed_position_amended (w h mx my : ℝ) (t i : ℕ) (s : Square) :
    (updateSquare w h mx my t i s).x
      = s.baseX + Real.sin (((t : ℝ) + 1) * 0.001 * s.speedX + s.phaseX) * s.amplitudeX ∧
    (updateSquare w h mx my t i s).y
      = s.baseY + Real.cos (((t : ℝ) + 1) * 0.001 * s.speedY + s.phaseY) * s.amplitudeY :=
  ⟨rfl, rfl⟩

/-! ### Engine iteration -/

@[simp] theorem updateEngine_width (e : Engine) : (updateEngine e).width = e.width := rfl

@[simp] theorem updateEngine_height (e : Engine) : (updateEngine e).height = e.height := rfl

@[simp] theorem updateEngine_mouseX (e : Engine) : (updateEngine e).mouseX = e.mouseX := rfl

@[simp] theorem updateEngine_mouseY (e : Engine) : (updateEngine e).mouseY = e.mouseY := rfl

@[simp] theorem updateEngine_time (e : Engine) : (updateEngine e).time = e.time + 1 := rfl

@[simp] theorem updateEngine_isRunning (e : Engine) :
    (updateEngine e).isRunning = e.isRunning := rfl

/-- The per-element state evolution of a single-square engine over `n`
update ticks, for the fields whose update does not depend on the pointer
or the surface: rotation advances by `n` times its fixed speed, and the
fold phase follows `foldIter`. -/
theorem iter_single (e : Engine) (s : Square) (h : e.squares = [s]) (n : ℕ) :
    ∃ s', (updateEngine^[n] e).squares = [s']
      ∧ s'.rotation = s.rotation + (n : ℝ) * s.rotationSpeed
      ∧ s'.rotationSpeed = s.rotationSpeed
      ∧ s'.foldState = foldIter s.foldState s.foldSpeed n
      ∧ s'.foldSpeed = s.foldSpeed := by
  induction n with
  | zero => exact ⟨s, by simpa using h, by push_cast; ring, rfl, rfl, rfl⟩
  | succ n ih =>
    obtain ⟨s', hsq, hrot, hrsp, hfs, hfsp⟩ := ih
    refine ⟨updateSquare (updateEngine^[n] e).width (updateEngine^[n] e).height
      (updateEngine^[n] e).mouseX (updateEngine^[n] e).mouseY
      (updateEngine^[n] e).time 0 s', ?_, ?_, ?_, ?_, ?_⟩
    · rw [Function.iterate_succ_apply']
      simp [updateEngine, hsq, updateSquares]
    · rw [updateSquare_rotation, hrot, hrsp]
      push_cast
      ring
    · rw [updateSquare_rotationSpeed, hrsp]
    · rw [updateSquare_foldState, hfs, hfsp]
      rfl
    · rw [updateSquare_foldSpeed, hfsp]

/-- As long as the accumulated fold phase has not passed `2π`, `foldIter`
is plain accumulation. -/
theorem foldIter_eq_add (f speed : ℝ) (hf : 0 ≤ f) (hsp : 0 ≤ speed) :
    ∀ n : ℕ, f + (n : ℝ) * speed ≤ 2 * Real.pi → foldIter f speed n = f + (n : ℝ) * speed
  | 0, _ => by
    show f = _
    push_cast
    ring
  | n + 1, hle => by
    have hn : f + (n : ℝ) * speed ≤ 2 * Real.pi := by
      push_cast at hle ⊢
      nlinarith
    have ih := foldIter_eq_add f speed hf hsp n hn
    show foldStep (foldIter f speed n) speed = _
    rw [ih]
    unfold foldStep
    rw [if_neg (by push_cast at hle ⊢; nlinarith)]
    push_cast
    ring

/-! ### C5: the fold-phase interval -/

/-- C5: the claim is false as stated.  Starting from the creation-legal
values `foldState = 2π - 6 ∈ [0, 1)` and `foldSpeed = 0.01 ∈ [0.005, 0.015)`,
the fold phase reaches exactly `2π` after 600 ticks — the wrap guard is a
strict `> 2π` test, so `2π` itself is kept, and `2π ∉ [0, 2π)`. -/
theorem c5_fold_phase_cex :
    (0 ≤ sqC5.foldState ∧ sqC5.foldState < 1) ∧
    (0.005 ≤ sqC5.foldSpeed ∧ sqC5.foldSpeed < 0.015) ∧
    (updateEngine^[600] engC5).squares.map Square.foldState = [2 * Real.pi] ∧
    ¬(2 * Real.pi < 2 * Real.pi) := by
  have hpi := Real.pi_gt_three
  have hpi2 := Real.pi_lt_d2
  obtain ⟨s', hsq, _, _, hfs, _⟩ := iter_single engC5 sqC5 rfl 600
  have hfold : sqC5.foldState = 2 * Real.pi - 6 := rfl
  have hspeed : sqC5.foldSpeed = 0.01 := rfl
  have h600 : foldIter sqC5.foldState sqC5.foldSpeed 600 = 2 * Real.pi := by
    rw [hfold, hspeed,
      foldIter_eq_add (2 * Real.pi - 6) 0.01 (by nlinarith) (by norm_num) 600
        (by push_cast; nlinarith)]
    push_cast
    ring
  refine ⟨⟨?_, ?_⟩, ⟨by rw [hspeed]; norm_num, by rw [hspeed]; norm_num⟩, ?_, lt_irrefl _⟩
  · rw [hfold]
    nlinarith
  · rw [hfold]
    nlinarith
  · rw [hsq, List.map_singleton, hfs, h600]

/-- C5 (amended): with the closed interval `[0, 2π]` in place of `[0, 2π)`,
the fold-phase invariant is preserved by every tick: the phase advances by
the per-element rate and is reset to 0 once it strictly passes `2π`, so a
phase that lands exactly on `2π` is kept. -/
theorem c5_fold_phase_amended (w h mx my : ℝ) (t i : ℕ) (s : Square)
    (h0 : 0 ≤ s.foldState) (h2 : s.foldState ≤ 2 * Real.pi) (hsp : 0 ≤ s.foldSpeed) :
    0 ≤ (updateSquare w h mx my t i s).foldState ∧
    (updateSquare w h mx my t i s).foldState ≤ 2 * Real.pi := by
  rw [updateSquare_foldState]
  unfold foldStep
  split_ifs with hgt
  · exact ⟨le_refl 0, by positivity⟩
  · exact ⟨by linarith, le_of_not_lt hgt⟩

/-- Witness for the amended C5 theorem at a concrete state. -/
theorem c5_fold_phase_witness :
    (0 ≤ sqW1.foldState ∧ sqW1.foldState ≤ 2 * Real.pi ∧ 0 ≤ sqW1.foldSpeed) ∧
    (0 ≤ (updateSquare 800 600 0 0 0 0 sqW1).foldState ∧
     (updateSquare 800 600 0 0 0 0 sqW1).foldState ≤ 2 * Real.pi) := by
  have hpi := Real.pi_gt_three
  have h1 : (0:ℝ) ≤ sqW1.foldState := by norm_num [sqW1]
  have h2 : sqW1.foldState ≤ 2 * Real.pi := by
    have : sqW1.foldState = 0.5 := rfl
    rw [this]
    nlinarith
  have h3 : (0:ℝ) ≤ sqW1.foldSpeed := by norm_num [sqW1]
  exact ⟨⟨h1, h2, h3⟩, c5_fold_phase_amended 800 600 0 0 0 0 sqW1 h1 h2 h3⟩

/-! ### C6: the rotation sequence -/

/-- C6: the claim is false as stated.  The creation range of
`rotationSpeed` is `(-0.01, 0.01)`, so a square can rotate backwards:
with `rotationSpeed = -0.005` the rotation strictly decreases in one tick. -/
theorem c6_rotation_monotone_cex :
    (-0.01 ≤ sqC6.rotationSpeed ∧ sqC6.rotationSpeed ≤ 0.01) ∧
    (updateSquare 800 600 0 0 0 0 sqC6).rotation < sqC6.rotation := by
  refine ⟨by norm_num [sqC6, sqW1], ?_⟩
  rw [updateSquare_rotation]
  norm_num [sqC6, sqW1]

/-- C6 (amended): over any number of ticks the rotation of an element
changes by a constant per-element increment per frame —
`rotation after n ticks = rotation + n * rotationSpeed` — and the
resulting sequence is monotone non-decreasing whenever the angular
velocity is nonnegative (creation can also draw a negative one). -/
theorem c6_rotation_stepwise_amended (e : Engine) (s : Square)
    (h : e.squares = [s]) (n m : ℕ) :
    (updateEngine^[n] e).squares.map Square.rotation
      = [s.rotation + (n : ℝ) * s.rotationSpeed] ∧
    (0 ≤ s.rotationSpeed → n ≤ m →
      s.rotation + (n : ℝ) * s.rotationSpeed
        ≤ s.rotation + (m : ℝ) * s.rotationSpeed) := by
  obtain ⟨s', hsq, hrot, _, _, _⟩ := iter_single e s h n
  constructor
  · rw [hsq, List.map_singleton, hrot]
  · intro hsp hnm
    have hc : (n : ℝ) ≤ (m : ℝ) := Nat.cast_le.mpr hnm
    nlinarith

/-- Witness for the amended C6 theorem at a concrete state. -/
theorem c6_rotation_stepwise_witness :
    engW6.squares = [sqW1] ∧
    (updateEngine^[1] engW6).squares.map Square.rotation
      = [sqW1.rotation + ((1 : ℕ) : ℝ) * sqW1.rotationSpeed] ∧
    0 ≤ sqW1.rotationSpeed ∧
    sqW1.rotation + ((1 : ℕ) : ℝ) * sqW1.rotationSpeed
      ≤ sqW1.rotation + ((2 : ℕ) : ℝ) * sqW1.rotationSpeed := by
  have H := c6_rotation_stepwise_amended engW6 sqW1 rfl 1 2
  exact ⟨rfl, H.1, by norm_num [sqW1], H.2 (by norm_num [sqW1]) (by norm_num)⟩

/-! ### C7: totality of the per-frame arithmetic -/

/-- C7: the per-frame computation is total.  With every division made
explicitly fallible, one tick never fails — the repulsion division is
reached only under the guard `dist > 0`, so its divisor is nonzero — for
every state, including zero-sized surfaces (`w = 0` or `h = 0`); and on a
zero-sized surface the grid-line loops draw nothing. -/
theorem c7_update_total (w h mx my : ℝ) (t i : ℕ) (s : Square) :
    updateSquareChecked w h mx my t i s = some (updateSquare w h mx my t i s) ∧
    vLineXs 0 = [] ∧ hLineYs 0 = [] := by
  refine ⟨?_, ?_, ?_⟩
  · simp only [updateSquareChecked, updateSquare]
    split_ifs with hc
    · have hd0 : Real.sqrt ((mx - dispX t s) * (mx - dispX t s)
          + (my - dispY t s) * (my - dispY t s)) ≠ 0 := ne_of_gt hc.2
      simp only [divOpt, if_neg hd0]
    · rfl
  · simp [vLineXs]
  · simp [hLineYs]

/-! ### C8: regeneration of the element set -/

/-- C8: every regeneration produces exactly `numSquares = 40` squares,
sorted ascending by layer, with both base coordinates inside the new
surface bounds; and the regenerated list is a function of the new size and
fresh randomness only — `onResize` installs it regardless of the previous
squares (no carry-over). -/
theorem c8_create_squares (rand : ℕ → ℝ) (w h : ℝ)
    (hr : ∀ k, 0 ≤ rand k ∧ rand k < 1) (hw : 0 ≤ w) (hh : 0 ≤ h) :
    (createSquares rand w h).length = numSquares ∧ numSquares = 40 ∧
    (createSquares rand w h).Sorted layerLe ∧
    (∀ s ∈ createSquares rand w h,
      0 ≤ s.baseX ∧ s.baseX ≤ w ∧ 0 ≤ s.baseY ∧ s.baseY ≤ h) ∧
    (∀ e : Engine, (onResize rand w h e).squares = createSquares rand w h) := by
  refine ⟨?_, rfl, ?_, ?_, fun e => by simp only [onResize]⟩
  · unfold createSquares
    rw [List.length_insertionSort, List.length_map, List.length_range]
  · exact List.sorted_insertionSort layerLe _
  · intro s hs
    unfold createSquares at hs
    rw [List.mem_insertionSort] at hs
    obtain ⟨j, hj, rfl⟩ := List.mem_map.mp hs
    refine ⟨mul_nonneg (hr _).1 hw, ?_, mul_nonneg (hr _).1 hh, ?_⟩
    · have := mul_le_mul_of_nonneg_right (le_of_lt (hr (18 * j + 13)).2) hw
      simpa using this
    · have := mul_le_mul_of_nonneg_right (le_of_lt (hr (18 * j + 14)).2) hh
      simpa using this

/-- Witness for the C8 theorem on the constant-zero random stream. -/
theorem c8_create_squares_witness :
    (∀ k, 0 ≤ rand0 k ∧ rand0 k < 1) ∧
    (createSquares rand0 800 600).length = numSquares :=
  ⟨fun k => by norm_num [rand0],
   (c8_create_squares rand0 800 600 (fun k => by norm_num [rand0])
     (by norm_num) (by norm_num)).1⟩

/-! ### C9: pause and resume -/

/-- A tick on a paused engine is the identity. -/
theorem animateTick_not_running (e : Engine) (h : e.isRunning = false) :
    animateTick e = e := by
  simp [animateTick, h]

/-- While the engine is running, `n` ticks advance the frame counter by
exactly `n` and leave the running flag set. -/
theorem animateTick_iter_running (e : Engine) (h : e.isRunning = true) (n : ℕ) :
    (animateTick^[n] e).time = e.time + n ∧ (animateTick^[n] e).isRunning = true := by
  induction n with
  | zero => simpa using h
  | succ n ih =>
    rw [Function.iterate_succ_apply']
    have ht : animateTick (animateTick^[n] e) = updateEngine (animateTick^[n] e) := by
      simp [animateTick, ih.2]
    rw [ht]
    refine ⟨?_, ?_⟩
    · rw [updateEngine_time, ih.1, Nat.add_assoc]
    · rw [updateEngine_isRunning, ih.2]

/-- C9: pausing (`setRunning false`) and later resuming changes neither
the frame counter nor any element state — ticks issued while paused are
no-ops, and after resuming the counter keeps incrementing from its prior
value, with no reset and no compensation for the paused interval. -/
theorem c9_pause_resume (e : Engine) (n m : ℕ) :
    (setRunning true (setRunning false e)).time = e.time ∧
    (setRunning true (setRunning false e)).squares = e.squares ∧
    (animateTick^[m] (setRunning false e)).time = e.time ∧
    (animateTick^[m] (setRunning false e)).squares = e.squares ∧
    (animateTick^[n] (setRunning true (setRunning false e))).time = e.time + n := by
  have hfix : animateTick^[m] (setRunning false e) = setRunning false e :=
    Function.iterate_fixed (animateTick_not_running (setRunning false e) rfl) m
  refine ⟨rfl, rfl, ?_, ?_, ?_⟩
  · rw [hfix]
    rfl
  · rw [hfix]
    rfl
  · exact (animateTick_iter_running (setRunning true (setRunning false e)) rfl n).1

/-! ### C10: the initial pointer position -/

/-- C10: a freshly constructed engine records the pointer at `(0, 0)`, and
an update tick with the pointer at the origin repels every element whose
displayed position is within 150 px of the origin (at nonzero distance)
directly away from the origin: the post-wrap base receives a positive
multiple of the displayed position vector. -/
theorem c10_initial_pointer (rand : ℕ → ℝ) (w h : ℝ) (t i : ℕ) (s : Square) :
    (mkEngine rand w h).mouseX = 0 ∧ (mkEngine rand w h).mouseY = 0 ∧
    (0 < pointerDist 0 0 t s → pointerDist 0 0 t s < 150 →
      ∃ c, 0 < c
        ∧ (updateSquare w h 0 0 t i s).baseX
            = wrapCoord w s.size (s.baseX + driftX t i) + c * dispX t s
        ∧ (updateSquare w h 0 0 t i s).baseY
            = wrapCoord h s.size (s.baseY + driftY t i) + c * dispY t s) := by
  refine ⟨rfl, rfl, ?_⟩
  intro hpos hlt
  have hc : pointerDist 0 0 t s < 150 ∧ pointerDist 0 0 t s > 0 := ⟨hlt, hpos⟩
  have hbx := updateSquare_baseX_eq w h 0 0 t i s
  have hby := updateSquare_baseY_eq w h 0 0 t i s
  rw [if_pos hc] at hbx hby
  have hd0 : pointerDist 0 0 t s ≠ 0 := ne_of_gt hpos
  refine ⟨(150 - pointerDist 0 0 t s) / 150 * 0.5 / pointerDist 0 0 t s, ?_, ?_, ?_⟩
  · have h1 : (0:ℝ) < 150 - pointerDist 0 0 t s := by linarith
    positivity
  · rw [hbx]
    field_simp
    ring
  · rw [hby]
    field_simp
    ring

/-- The displayed position of the zero-amplitude square `sqW10` is
`(30, 40)`, at distance exactly 50 from the origin. -/
theorem pointerDist_sqW10 : pointerDist 0 0 0 sqW10 = 50 := by
  have hdx : dispX 0 sqW10 = 30 := by simp [dispX, sqW10, sqW1]
  have hdy : dispY 0 sqW10 = 40 := by simp [dispY, sqW10, sqW1]
  have hsum : (0 - dispX 0 sqW10) * (0 - dispX 0 sqW10)
      + (0 - dispY 0 sqW10) * (0 - dispY 0 sqW10) = 50 * 50 := by
    rw [hdx, hdy]
    norm_num
  unfold pointerDist
  rw [hsum, Real.sqrt_mul_self (by norm_num : (0:ℝ) ≤ 50)]

/-- Witness for the C10 theorem at a concrete state 50 px from the origin. -/
theorem c10_initial_pointer_witness :
    0 < pointerDist 0 0 0 sqW10 ∧ pointerDist 0 0 0 sqW10 < 150 ∧
    (mkEngine rand0 800 600).mouseX = 0 ∧
    (∃ c, 0 < c
      ∧ (updateSquare 800 600 0 0 0 0 sqW10).baseX
          = wrapCoord 800 sqW10.size (sqW10.baseX + driftX 0 0) + c * dispX 0 sqW10
      ∧ (updateSquare 800 600 0 0 0 0 sqW10).baseY
          = wrapCoord 600 sqW10.size (sqW10.baseY + driftY 0 0) + c * dispY 0 sqW10) := by
  have h1 : 0 < pointerDist 0 0 0 sqW10 := by
    rw [pointerDist_sqW10]
    norm_num
  have h2 : pointerDist 0 0 0 sqW10 < 150 := by
    rw [pointerDist_sqW10]
    norm_num
  have H := c10_initial_pointer rand0 800 600 0 0 sqW10
  exact ⟨h1, h2, H.1, H.2.2 h1 h2⟩

end

end Origami
